import Mathlib

/-!
Shallow embedding of the Env/Mux/attach-kill concurrency kernel of the
`gui` package (Go), together with theorems checking the repository's
specification against the code.

The pure geometry (`clamp`, `Scroller.Partition`, `image.Rect`) is embedded
as Lean functions on `Int`.  The coordinator goroutines (the Mux fan-out
loop, the killer/attachHandler loop, the `newEnv` shutdown sequence) are
single sequential processes communicating over channels, so each one is
embedded as an explicit step function over its local state, driven by the
sequence of messages it consumes; an interleaving of the surrounding
goroutines is the order in which those messages reach the coordinator.
-/

namespace Gui

/-- `image.Point` of the Go standard library: a pair of machine integers.
Coordinates are modelled as unbounded `Int` (no claim exercises overflow). -/
structure Point where
  x : Int
  y : Int
deriving DecidableEq, Repr

/-- `image.Rectangle`: min and max corner points. -/
structure Rectangle where
  min : Point
  max : Point
deriving DecidableEq, Repr

/-- `image.Rect(x0, y0, x1, y1)` of the Go standard library: builds a
rectangle, swapping the coordinates when given in the wrong order. -/
def imageRect (x0 y0 x1 y1 : Int) : Rectangle :=
  let p := if x0 > x1 then (x1, x0) else (x0, x1)
  let q := if y0 > y1 then (y1, y0) else (y0, y1)
  ⟨⟨p.1, q.1⟩, ⟨p.2, q.2⟩⟩

/-- `Event` (event.go / part files): closed union of GUI events.  Only the
constructor tags matter to the claims; payloads are kept where the claims
mention them.  Keys and buttons are opaque numeric codes. -/
inductive Event where
  | resize (r : Rectangle)
  | moMove (p : Point)
  | moDown (p : Point) (b : Nat)
  | moUp (p : Point) (b : Nat)
  | moScroll (p : Point)
  | kbDown (k : Nat)
  | kbUp (k : Nat)
  | kbRepeat (k : Nat)
  | kbType (r : Nat)
  | wiClose
deriving DecidableEq, Repr

/-- The `e.(Resize)` type test used by the Mux coordinators. -/
def Event.isResize : Event → Bool
  | .resize _ => true
  | _ => false

/-- `clamp(val, a, b int) int` from src/scroller.go lines 30-47, verbatim. -/
def clamp (val a b : Int) : Int :=
  if a > b then
    if val < b then b
    else if val > a then a
    else val
  else
    if val > b then b
    else if val < a then a
    else val

/-- The `Scroller` layout scheme (src/scroller.go); the fields consumed by
`Partition`.  (`Background` and `Vertical` are irrelevant to partitioning.) -/
structure Scroller where
  length : Int
  childHeight : Int
  offset : Int
  gap : Int
deriving DecidableEq, Repr

/-- The body of the `for i := 0; i < items; i++` loop of
`Scroller.Partition`: `n` iterations remain, `y` is the running `Y`. -/
def partitionLoop (minX maxX ch gap : Int) : Nat → Int → List Rectangle
  | 0, _ => []
  | n + 1, y =>
      imageRect (minX + gap) y (maxX - gap) (y + ch) :: partitionLoop minX maxX ch gap n (y + ch + gap)

/-- `Scroller.Partition(bounds image.Rectangle) []image.Rectangle`
(src/scroller.go lines 49-62): lays `Length` rectangles of height
`ChildHeight` top to bottom starting at `bounds.Min.Y + Offset + Gap`,
inset by `Gap` on the left and right.  A non-positive `Length` yields no
rectangles (in Go the loop body never runs). -/
def Scroller.Partition (s : Scroller) (bounds : Rectangle) : List Rectangle :=
  partitionLoop bounds.min.x bounds.max.x s.childHeight s.gap s.length.toNat
    (bounds.min.y + s.offset + s.gap)

/-- `remove[S ~[]E, E comparable](e E, s S) ([]E, error)` from
src/unnamed/part_001 lines 197-204: linear scan for the first element equal
to `e`; `none` models the `error` return, `some` the slice with that
element spliced out (`append(s[:i], s[i+1:]...)`). -/
def remove {α : Type} [DecidableEq α] (e : α) : List α → Option (List α)
  | [] => none
  | x :: xs => if x = e then some xs else (remove e xs).map (x :: ·)

/-! ## The Mux coordinator (src/unnamed/part_001 `NewMux` / `Mux.MakeEnv`)

The Mux goroutine (part_001 lines 34-83) is one sequential loop selecting
among its channels.  Children are identified by `Nat` ids standing for the
distinct `muxEnv` channel bundles.  The loop's observable effect on the
children is the sequence of events enqueued into each child's unbounded
`eventsIn` queue, recorded here as a log of `(child, event)` pairs in
enqueue order.

`MakeEnv` (lines 120-174) runs in the caller's goroutine: it sends the new
child on `addChild`, then reads `mux.size.Get()` and enqueues
`Resize{mux.size.Get()}` into the child's own queue.  Both of these reach
the shared state through the single coordinator/queue discipline, so an
interleaving of MakeEnv with the coordinator is captured by where the
`initResize` step lands in the coordinator-serialized message order: always
after that child's `addChild`, but possibly after further parent events. -/

/-- A message consumed by the Mux coordinator loop, or the enqueue step of
a running `MakeEnv` call. -/
inductive MuxMsg where
  | draw (d : Nat)
  | parentEvent (e : Event)
  | addChild (c : Nat)
  | initResize (c : Nat)
  | removeChild (c : Nat)
deriving DecidableEq, Repr

/-- The Mux coordinator's local state: the registry slice `children` in
registration order and the shared-size cell (`share.Val`), which holds no
value until the first `Set`. -/
structure MuxState where
  children : List Nat
  size : Option Rectangle
deriving DecidableEq, Repr

/-- One iteration of the Mux coordinator loop (part_001 lines 60-82), plus
the `eventsIn <- Resize{mux.size.Get()}` step of `MakeEnv` (line 139).
Returns the new state and the `(child, event)` enqueues it performs, or
`none` when the step cannot complete:

* `removeChild` of an unregistered child panics (line 77);
* `initResize` before the size cell holds a value blocks forever inside
  `mux.size.Get()` (the cell serves no request before its first `Set`).

A `draw` command is forwarded to `parent.Draw()` and enqueues nothing into
any child; a parent `Resize` sets the size cell and is then forwarded,
like every other parent event, to each registered child in order. -/
def muxStep (s : MuxState) : MuxMsg → Option (MuxState × List (Nat × Event))
  | .draw _ => some (s, [])
  | .parentEvent e =>
      let s' : MuxState :=
        match e with
        | .resize r => { s with size := some r }
        | _ => s
      some (s', s.children.map fun c => (c, e))
  | .addChild c => some ({ s with children := s.children ++ [c] }, [])
  | .initResize c =>
      match s.size with
      | some b => some (s, [(c, .resize b)])
      | none => none
  | .removeChild c => (remove c s.children).map fun cs => ({ s with children := cs }, [])

/-- Runs the Mux coordinator over a serialized message sequence,
accumulating the per-child enqueue log. -/
def muxRun (s : MuxState) : List MuxMsg → Option (MuxState × List (Nat × Event))
  | [] => some (s, [])
  | m :: ms =>
      (muxStep s m).bind fun p =>
        (muxRun p.1 ms).map fun q => (q.1, p.2 ++ q.2)

/-- The event sequence child `c` dequeues from its unbounded queue: the
events enqueued for `c`, in enqueue order. -/
def observedBy (c : Nat) (log : List (Nat × Event)) : List Event :=
  (log.filter fun p => p.1 == c).map Prod.snd

/-- The two shared-state steps of one `Mux.MakeEnv()` call, in program
order: register the child, then enqueue its initial Resize. -/
def makeEnvMsgs (c : Nat) : List MuxMsg :=
  [.addChild c, .initResize c]

/-! ## The layout Mux's `resizeChildren` (src/unnamed/part_003 lines 454-467) -/

/-- The `for eventsIn := range mux.eventsIns.Elems()` loop of
`Mux.resizeChildren`, with `i` the running index into the partition `lay`.
Each iteration first tests `i > len(lay)` (logging and breaking when it
holds), then evaluates `lay[i]` — which panics with an index-out-of-range
runtime error when `i = len(lay)`, modelled as `none`.  On success the
result is the list of `(child, rectangle)` Resize enqueues in child order. -/
def resizeLoop (lay : List Rectangle) : Nat → List Nat → Option (List (Nat × Rectangle))
  | _, [] => some []
  | i, c :: cs =>
      if i > lay.length then some []
      else
        match lay.get? i with
        | some r => (resizeLoop lay (i + 1) cs).map ((c, r) :: ·)
        | none => none

/-- `Mux.resizeChildren` of the layout Mux: computes `lay := layout.Lay(bounds)`
outside this function; here `lay` and the registered children are taken as
arguments and the function yields the localized Resize enqueues, or `none`
for the index-out-of-range panic. -/
def resizeChildren (lay : List Rectangle) (children : List Nat) : Option (List (Nat × Rectangle)) :=
  resizeLoop lay 0 children

/-! ## The attach/kill controller (src/kill.go `newKiller`,
src/unnamed/part_004 `newAttachHandler`)

Both controller goroutines run the same sequential protocol: an outer loop
selecting between an attach message and the kill signal, and, once a victim
is attached, an inner wait selecting between the victim's detach signal and
the kill signal; on kill while attached the goroutine sends kill to the
victim, receives the victim's detach, receives the victim's dead, and
returns; its deferred calls then close `attach` and `kill` and finally emit
`dead <- true` and close `dead`.  The goroutine is sequential, so its
behaviour is the set of action traces its control flow admits. -/

/-- One observable action of the controller goroutine. -/
inductive KAction where
  | recvAttach
  | recvDetach
  | recvKill
  | sendVictimKill
  | recvVictimDetach
  | recvVictimDead
  | emitDead
deriving DecidableEq, Repr

/-- The control-flow position of the controller goroutine.
`victimAttached` below marks the positions where an attached victim has not
yet signalled detach. -/
inductive KPhase where
  | empty
  | attached
  | killRecvd
  | killSent
  | victimDetached
  | closing
  | dead
deriving DecidableEq, Repr

/-- The transition relation of the controller goroutine, read off the Go
control flow (kill.go lines 43-66, part_004 lines 41-64):

* in the outer select (`empty`) the goroutine can receive an attach or its
  kill; kill leads to the deferred shutdown (`closing`);
* in the inner wait (`attached`) it can receive the victim's detach (back
  to the outer loop) or its kill (`killRecvd`);
* after kill while attached it performs, in program order,
  `victim.Kill() <- true`, `<-victim.detach()`, `<-victim.Dead()`, and then
  returns into the deferred shutdown;
* the deferred shutdown emits the dead signal as its last action
  (`closing` to `dead`), and a dead controller performs nothing further.

`none` means the goroutine never performs that action at that position —
in particular an attach sender blocks for as long as the controller sits in
any position other than the outer select. -/
def kstep : KPhase → KAction → Option KPhase
  | .empty, .recvAttach => some .attached
  | .empty, .recvKill => some .closing
  | .attached, .recvDetach => some .empty
  | .attached, .recvKill => some .killRecvd
  | .killRecvd, .sendVictimKill => some .killSent
  | .killSent, .recvVictimDetach => some .victimDetached
  | .victimDetached, .recvVictimDead => some .closing
  | .closing, .emitDead => some .dead
  | _, _ => none

/-- Runs the controller over an action trace; `none` when some action in
the trace is not admitted by the control flow. -/
def kexec (ph : KPhase) : List KAction → Option KPhase
  | [] => some ph
  | a :: tr => (kstep ph a).bind fun ph' => kexec ph' tr

/-- The positions in which a victim is attached to the controller and has
not yet signalled detach. -/
def victimAttached : KPhase → Bool
  | .attached => true
  | .killRecvd => true
  | .killSent => true
  | _ => false

/-- Whether a Go channel send succeeds or panics: sending on a closed
channel panics (a sender already blocked on the channel when it is closed
panics as well); `delivered` stands for a send the receiver accepts. -/
inductive SendResult where
  | delivered
  | panicked
deriving DecidableEq, Repr

/-- Go channel-send semantics at the granularity the claims need. -/
def goSend (chanOpen : Bool) : SendResult :=
  if chanOpen then .delivered else .panicked

/-! ## The lifecycle of a Killable entity's goroutine

Every Killable entity of the package — `newKiller` (kill.go lines 43-49),
`newAttachHandler` (part_004 lines 41-47), `newEnv` (part_005 lines
65-82) and the Mux of `NewMux` (part_001 lines 34-58) — is one goroutine
of the same shape: a loop that services messages until its kill signal is
received once, followed by its deferred calls, which run exactly once, in
last-in-first-out registration order, close each channel the entity owns
exactly once, and send the Dead signal exactly once.  The lifecycle model
below captures this shape: a `running` position in which the loop performs
arbitrary service iterations (`work`), a `recvKill` transition into the
defer stack, and then the entity's fixed shutdown sequence executed step
by step. -/

/-- The channels owned by the Killable entities of the package. -/
inductive ChanName where
  | attachC
  | killC
  | deadC
  | detachC
  | drawC
  | eventsInC
  | addChildC
  | removeChildC
deriving DecidableEq, Repr

/-- One action of a Killable entity's goroutine. -/
inductive LifeAction where
  | work
  | recvKill
  | closeChan (c : ChanName)
  | emitDead
  | startDrain
  | cascadeKillChild
  | awaitChildDead
  | runHook
  | sendDetach
  | closeSizeCell
deriving DecidableEq, Repr

/-- The shutdown sequence of `newKiller` (kill.go lines 44-49): the
deferred calls `dead <- true; close(dead)`, `close(kill)`, `close(attach)`
were registered in that order, so they execute in reverse. -/
def killerShutdownSeq : List LifeAction :=
  [.closeChan .attachC, .closeChan .killC, .emitDead, .closeChan .deadC]

/-- The shutdown sequence of `newAttachHandler` (part_004 lines 42-47):
the same three deferred calls as `newKiller`, registered in the same
order. -/
def attachHandlerShutdownSeq : List LifeAction :=
  [.closeChan .attachC, .closeChan .killC, .emitDead, .closeChan .deadC]

/-- The shutdown sequence of the `newEnv` goroutine (part_005 lines
65-82), its seven deferred calls executed in reverse registration order:
start the draw-channel drain and cascade-kill the attached child, close
`kill`, close `drawChan`, close `events.Enqueue`, run `shutdown()`, send
and close `detachFromParent`, send and close `dead`. -/
def envLifeShutdownSeq : List LifeAction :=
  [.startDrain, .cascadeKillChild, .awaitChildDead,
   .closeChan .killC, .closeChan .drawC, .closeChan .eventsInC,
   .runHook, .sendDetach, .closeChan .detachC,
   .emitDead, .closeChan .deadC]

/-- The shutdown sequence of the Mux coordinator goroutine (part_001
lines 35-58), its eight deferred calls executed in reverse registration
order: drain the draw channel and kill every remaining child awaiting its
removal (the per-child sends and receives collapsed into one cascade and
one await step), `size.Close()`, close `drawChan`, close `addChild`,
close `removeChild`, close `kill`, send and close `detachFromParent`,
send and close `dead`. -/
def muxShutdownSeq : List LifeAction :=
  [.startDrain, .cascadeKillChild, .awaitChildDead,
   .closeSizeCell, .closeChan .drawC, .closeChan .addChildC,
   .closeChan .removeChildC, .closeChan .killC,
   .sendDetach, .closeChan .detachC,
   .emitDead, .closeChan .deadC]

/-- The Killable entities named by the spec's idempotent-shutdown
property. -/
inductive KillableKind where
  | killer
  | attachHandler
  | env
  | mux
deriving DecidableEq, Repr

/-- The shutdown (defer-stack) sequence of each Killable entity, in
execution order, read off its goroutine. -/
def shutdownSeqOf : KillableKind → List LifeAction
  | .killer => killerShutdownSeq
  | .attachHandler => attachHandlerShutdownSeq
  | .env => envLifeShutdownSeq
  | .mux => muxShutdownSeq

/-- The position of a Killable entity's goroutine: servicing its loop, or
inside its defer stack with the listed steps still to run (`shuttingDown
[]` is the exited goroutine). -/
inductive LifePhase where
  | running
  | shuttingDown (rem : List LifeAction)
deriving DecidableEq, Repr

/-- One action of the entity's goroutine, for an entity whose defer stack
is `seq`: while running, the loop may perform any number of service
iterations and may consume its kill signal once, which makes it return
into the defer stack; inside the defer stack exactly the next deferred
step is performed.  `none` means the goroutine never performs that action
at that position. -/
def lifeStep (seq : List LifeAction) : LifePhase → LifeAction → Option LifePhase
  | .running, .work => some .running
  | .running, .recvKill => some (.shuttingDown seq)
  | .shuttingDown (a :: rest), b => if b = a then some (.shuttingDown rest) else none
  | _, _ => none

/-- Runs the entity's goroutine over an action trace. -/
def lifeExec (seq : List LifeAction) (ph : LifePhase) : List LifeAction → Option LifePhase
  | [] => some ph
  | a :: tr => (lifeStep seq ph a).bind fun ph' => lifeExec seq ph' tr

/-- Whether a channel is still open after the trace `tr`: open unless its
close has executed. -/
def chanOpenAfter (c : ChanName) (tr : List LifeAction) : Bool :=
  !(decide (LifeAction.closeChan c ∈ tr))

/-! ## The `newEnv` shutdown sequence (src/unnamed/part_005 lines 53-106)

Go `defer` statements run in last-in-first-out order when the goroutine
returns.  `newEnvDefers` lists the deferred calls of the `newEnv`
goroutine in *registration* order, each expanded to the steps it performs
in program order; `deferRun` executes them LIFO. -/

/-- One step of the `newEnv` goroutine's shutdown. -/
inductive ShutdownStep where
  | startDrainDraw
  | killChild
  | awaitChildDead
  | closeKill
  | closeDraw
  | closeEventsIn
  | runShutdownHook
  | detachFromParent
  | emitDead
deriving DecidableEq, Repr

/-- The deferred calls of the `newEnv` goroutine (part_005 lines 65-82), in
the order they are registered:
1. `dead <- true; close(dead)`
2. `detachFromParent <- true; close(detachFromParent)`
3. `shutdown()`
4. `close(events.Enqueue)`
5. `close(drawChan)`
6. `close(kill)`
7. `go drain(drawChan); child.Kill() <- true; <-child.Dead()` -/
def newEnvDefers : List (List ShutdownStep) :=
  [[.emitDead],
   [.detachFromParent],
   [.runShutdownHook],
   [.closeEventsIn],
   [.closeDraw],
   [.closeKill],
   [.startDrainDraw, .killChild, .awaitChildDead]]

/-- Executes a Go defer stack: registered calls run in reverse order. -/
def deferRun (ds : List (List ShutdownStep)) : List ShutdownStep :=
  ds.reverse.flatMap id

/-- The shutdown steps `newEnv` performs, in execution order, once its kill
signal is received. -/
def newEnvShutdownSeq : List ShutdownStep :=
  deferRun newEnvDefers

/-- Modelled from the spec: the shutdown order stated in spec.md §4.3 —
run the shutdown hook, close the outbound event queue and inbound draw
channel, cascade-kill the attached sub-resource via the attach protocol,
drain remaining draw commands, then report dead. -/
def specShutdownSeq : List ShutdownStep :=
  [.runShutdownHook, .closeEventsIn, .closeDraw,
   .killChild, .awaitChildDead, .startDrainDraw,
   .closeKill, .detachFromParent, .emitDead]

/-- The value of the Mux's size cell after consuming a sequence of parent
events: each parent `Resize` overwrites it (part_001 lines 65-67). -/
def sizeAfter (sz : Option Rectangle) : List Event → Option Rectangle
  | [] => sz
  | .resize r :: es => sizeAfter (some r) es
  | _ :: es => sizeAfter sz es

/-! ## Helper lemmas -/

theorem remove_eq_none_iff {α : Type} [DecidableEq α] (e : α) :
    ∀ s : List α, remove e s = none ↔ e ∉ s := by
  intro s
  induction s with
  | nil => simp [remove]
  | cons x xs ih =>
      by_cases hxe : x = e
      · subst hxe
        simp [remove]
      · simp [remove, hxe, Option.map_eq_none', ih, Ne.symm hxe]

theorem remove_first {α : Type} [DecidableEq α] (e : α) :
    ∀ (l1 l2 : List α), e ∉ l1 → remove e (l1 ++ e :: l2) = some (l1 ++ l2) := by
  intro l1
  induction l1 with
  | nil => intro l2 _; simp [remove]
  | cons x l1 ih =>
      intro l2 hmem
      have hxe : ¬x = e := fun h => hmem (h ▸ List.mem_cons_self x l1)
      have hrest : e ∉ l1 := fun h => hmem (List.mem_cons_of_mem x h)
      simp [remove, hxe, ih l2 hrest]

theorem kexec_append (t1 : List KAction) : ∀ (ph : KPhase) (t2 : List KAction),
    kexec ph (t1 ++ t2) = (kexec ph t1).bind fun ph' => kexec ph' t2 := by
  induction t1 with
  | nil => intro ph t2; simp [kexec]
  | cons a tr ih =>
      intro ph t2
      cases h : kstep ph a with
      | none => simp [kexec, h]
      | some ph' => simp [kexec, h, ih]

theorem dead_terminal (tr : List KAction) (ph : KPhase)
    (h : kexec .dead tr = some ph) : tr = [] ∧ ph = .dead := by
  cases tr with
  | nil =>
      simp [kexec] at h
      exact ⟨rfl, h.symm⟩
  | cons a tr => cases a <;> simp [kexec, kstep] at h

theorem emitDead_reaches_dead (tr : List KAction) : ∀ (ph0 ph : KPhase),
    kexec ph0 tr = some ph → KAction.emitDead ∈ tr → ph = .dead := by
  induction tr with
  | nil => intro ph0 ph _ hmem; simp at hmem
  | cons a tr ih =>
      intro ph0 ph h hmem
      simp only [kexec, Option.bind_eq_some] at h
      obtain ⟨ph1, hstep, hrest⟩ := h
      rcases List.mem_cons.mp hmem with ha | ha
      · subst ha
        cases ph0 <;> simp [kstep] at hstep
        subst hstep
        exact (dead_terminal tr ph hrest).2
      · exact ih ph1 ph hrest ha

theorem kexec_count_emitDead (tr : List KAction) : ∀ (ph0 ph : KPhase),
    kexec ph0 tr = some ph → tr.count KAction.emitDead ≤ 1 := by
  induction tr with
  | nil => intro ph0 ph _; simp
  | cons a tr ih =>
      intro ph0 ph h
      simp only [kexec, Option.bind_eq_some] at h
      obtain ⟨ph1, hstep, hrest⟩ := h
      by_cases ha : a = KAction.emitDead
      · subst ha
        cases ph0 <;> simp [kstep] at hstep
        subst hstep
        obtain ⟨rfl, -⟩ := dead_terminal tr ph hrest
        simp
      · simpa [List.count_cons, ha] using ih ph1 ph hrest

theorem chain_from_killRecvd (rest : List KAction)
    (h : kexec .killRecvd rest = some .dead) :
    rest = [.sendVictimKill, .recvVictimDetach, .recvVictimDead, .emitDead] := by
  rcases rest with _ | ⟨a, rest⟩
  · simp [kexec] at h
  cases a <;> simp [kexec, kstep] at h ⊢
  rcases rest with _ | ⟨a, rest⟩
  · simp [kexec] at h
  cases a <;> simp [kexec, kstep] at h ⊢
  rcases rest with _ | ⟨a, rest⟩
  · simp [kexec] at h
  cases a <;> simp [kexec, kstep] at h ⊢
  rcases rest with _ | ⟨a, rest⟩
  · simp [kexec] at h
  cases a <;> simp [kexec, kstep] at h ⊢
  exact (dead_terminal rest _ h).1

theorem lifeExec_shuttingDown (seq : List LifeAction) (tr : List LifeAction) :
    ∀ (rem : List LifeAction) (ph : LifePhase),
      lifeExec seq (.shuttingDown rem) tr = some ph →
      ∃ rem', ph = .shuttingDown rem' ∧ rem = tr ++ rem' := by
  induction tr with
  | nil =>
      intro rem ph h
      simp [lifeExec] at h
      exact ⟨rem, h.symm, by simp⟩
  | cons a tr ih =>
      intro rem ph h
      simp only [lifeExec, Option.bind_eq_some] at h
      obtain ⟨ph1, hstep, hrest⟩ := h
      cases rem with
      | nil => simp [lifeStep] at hstep
      | cons b rem =>
          simp only [lifeStep] at hstep
          by_cases hab : a = b
          · subst hab
            rw [if_pos rfl] at hstep
            obtain rfl := Option.some.inj hstep
            obtain ⟨rem', hph, hrem⟩ := ih rem ph hrest
            exact ⟨rem', hph, by simp [hrem]⟩
          · rw [if_neg hab] at hstep
            cases hstep

theorem lifeExec_running (seq : List LifeAction) (tr : List LifeAction) :
    ∀ ph, lifeExec seq .running tr = some ph →
      (ph = .running ∧ ∀ x ∈ tr, x = LifeAction.work) ∨
        ∃ w t rem', tr = w ++ LifeAction.recvKill :: t ∧
          (∀ x ∈ w, x = LifeAction.work) ∧ seq = t ++ rem' ∧ ph = .shuttingDown rem' := by
  induction tr with
  | nil =>
      intro ph h
      simp [lifeExec] at h
      exact Or.inl ⟨h.symm, by simp⟩
  | cons a tr ih =>
      intro ph h
      simp only [lifeExec, Option.bind_eq_some] at h
      obtain ⟨ph1, hstep, hrest⟩ := h
      cases a with
      | work =>
          simp only [lifeStep] at hstep
          obtain rfl := Option.some.inj hstep
          rcases ih ph hrest with ⟨hph, hall⟩ | ⟨w, t, rem', htr, hw, hseq, hph⟩
          · refine Or.inl ⟨hph, ?_⟩
            intro x hx
            rcases List.mem_cons.mp hx with rfl | hx'
            · rfl
            · exact hall x hx'
          · refine Or.inr ⟨.work :: w, t, rem', by simp [htr], ?_, hseq, hph⟩
            intro x hx
            rcases List.mem_cons.mp hx with rfl | hx'
            · rfl
            · exact hw x hx'
      | recvKill =>
          simp only [lifeStep] at hstep
          obtain rfl := Option.some.inj hstep
          obtain ⟨rem', hph, hrem⟩ := lifeExec_shuttingDown seq tr seq ph hrest
          exact Or.inr ⟨[], tr, rem', rfl, by simp, hrem, hph⟩
      | closeChan c => simp [lifeStep] at hstep
      | emitDead => simp [lifeStep] at hstep
      | startDrain => simp [lifeStep] at hstep
      | cascadeKillChild => simp [lifeStep] at hstep
      | awaitChildDead => simp [lifeStep] at hstep
      | runHook => simp [lifeStep] at hstep
      | sendDetach => simp [lifeStep] at hstep
      | closeSizeCell => simp [lifeStep] at hstep

theorem lifeExec_count_le (seq tr : List LifeAction) (ph : LifePhase) (a : LifeAction)
    (h : lifeExec seq .running tr = some ph)
    (hw : a ≠ LifeAction.work) (hk : a ≠ LifeAction.recvKill) :
    tr.count a ≤ seq.count a := by
  rcases lifeExec_running seq tr ph h with ⟨-, hall⟩ | ⟨w, t, rem', rfl, hwall, hseq, -⟩
  · have hmem : a ∉ tr := fun hmem => hw (hall a hmem)
    simp [List.count_eq_zero.mpr hmem]
  · have hwz : w.count a = 0 := List.count_eq_zero.mpr fun hmem => hw (hwall a hmem)
    have hif : (LifeAction.recvKill == a) = false := beq_eq_false_iff_ne.mpr (Ne.symm hk)
    have hle : t.count a ≤ seq.count a := by
      rw [hseq, List.count_append]
      omega
    rw [List.count_append, hwz, List.count_cons, hif]
    simp
    omega

theorem lifeExec_complete_mem (seq tr : List LifeAction)
    (h : lifeExec seq .running tr = some (.shuttingDown []))
    (a : LifeAction) (ha : a ∈ seq) : a ∈ tr := by
  rcases lifeExec_running seq tr _ h with ⟨hph, -⟩ | ⟨w, t, rem', rfl, -, hseq, hph⟩
  · cases hph
  · have hrem : rem' = [] := by
      injection hph with h2
      exact h2.symm
    rw [hrem, List.append_nil] at hseq
    rw [hseq] at ha
    exact List.mem_append_right w (List.mem_cons_of_mem _ ha)

theorem muxRun_append (m1 : List MuxMsg) : ∀ (s : MuxState) (m2 : List MuxMsg),
    muxRun s (m1 ++ m2) =
      (muxRun s m1).bind fun p => (muxRun p.1 m2).map fun q => (q.1, p.2 ++ q.2) := by
  induction m1 with
  | nil =>
      intro s m2
      cases h : muxRun s m2 with
      | none => simp [muxRun, h]
      | some q => simp [muxRun, h]
  | cons m ms ih =>
      intro s m2
      cases h : muxStep s m with
      | none => simp [muxRun, h]
      | some p =>
          cases h2 : muxRun p.1 ms with
          | none => simp [muxRun, h, ih, h2]
          | some p' =>
              cases h3 : muxRun p'.1 m2 with
              | none => simp [muxRun, h, ih, h2, h3]
              | some q => simp [muxRun, h, ih, h2, h3]

theorem muxRun_setup (b : Rectangle) : ∀ (cs ch0 : List Nat),
    muxRun ⟨ch0, some b⟩ (cs.flatMap makeEnvMsgs) =
      some (⟨ch0 ++ cs, some b⟩, cs.map fun c => (c, Event.resize b)) := by
  intro cs
  induction cs with
  | nil => intro ch0; simp [muxRun]
  | cons c cs ih =>
      intro ch0
      have ihc := ih (ch0 ++ [c])
      simp [makeEnvMsgs, muxRun, muxStep, List.append_assoc] at ihc ⊢
      exact ihc

theorem muxRun_deliver : ∀ (E : List Event) (ch : List Nat) (sz : Option Rectangle),
    muxRun ⟨ch, sz⟩ (E.map MuxMsg.parentEvent) =
      some (⟨ch, sizeAfter sz E⟩, E.flatMap fun e => ch.map fun c => (c, e)) := by
  intro E
  induction E with
  | nil => intro ch sz; simp [muxRun, sizeAfter]
  | cons e E ih =>
      intro ch sz
      cases e <;> simp [muxRun, muxStep, sizeAfter, ih]

theorem observedBy_append (c : Nat) (l1 l2 : List (Nat × Event)) :
    observedBy c (l1 ++ l2) = observedBy c l1 ++ observedBy c l2 := by
  simp [observedBy, List.filter_append]

theorem observedBy_map_not_mem (c : Nat) (f : Nat → Event) :
    ∀ cs : List Nat, c ∉ cs → observedBy c (cs.map fun x => (x, f x)) = [] := by
  intro cs
  induction cs with
  | nil => intro _; simp [observedBy]
  | cons x cs ih =>
      intro hmem
      have hx : ¬x = c := fun h => hmem (h ▸ List.mem_cons_self x cs)
      have hcs : c ∉ cs := fun h => hmem (List.mem_cons_of_mem x h)
      simp [observedBy, hx] at ih ⊢
      exact ih hcs

theorem observedBy_map_single (c : Nat) (f : Nat → Event) :
    ∀ cs : List Nat, cs.Nodup → c ∈ cs →
      observedBy c (cs.map fun x => (x, f x)) = [f c] := by
  intro cs
  induction cs with
  | nil => intro _ hc; simp at hc
  | cons x cs ih =>
      intro hnd hc
      obtain ⟨hx, hnd'⟩ := List.nodup_cons.mp hnd
      rcases List.mem_cons.mp hc with rfl | hc'
      · have : observedBy c (cs.map fun x => (x, f x)) = [] :=
          observedBy_map_not_mem c f cs hx
        simp [observedBy] at this ⊢
        exact this
      · have hxc : ¬x = c := fun h => hx (h ▸ hc')
        simp [observedBy, hxc] at ih ⊢
        exact ih hnd' hc'

theorem observedBy_deliverLog (c : Nat) (ch : List Nat) (hnd : ch.Nodup) (hc : c ∈ ch) :
    ∀ E : List Event, observedBy c (E.flatMap fun e => ch.map fun x => (x, e)) = E := by
  intro E
  induction E with
  | nil => simp [observedBy]
  | cons e E ih =>
      rw [List.flatMap_cons, observedBy_append,
        observedBy_map_single c (fun _ => e) ch hnd hc, ih]
      rfl

/-! ## Claim theorems -/

/-- C1: for every Mux with registered children `cs` (each attached through
the `MakeEnv` protocol while the shared-size cell holds `b`) and every
finite sequence `E` of non-Resize events consumed from the parent Env, each
child's observed event sequence is exactly one Resize carrying `b`, the
cell's content at attach time, followed by `E` in the parent's order. -/
theorem mux_fanout_fidelity (cs : List Nat) (b : Rectangle) (E : List Event) (c : Nat)
    (hnd : cs.Nodup) (hc : c ∈ cs) (_hE : ∀ e ∈ E, e.isResize = false) :
    (muxRun ⟨[], some b⟩ (cs.flatMap makeEnvMsgs ++ E.map MuxMsg.parentEvent)).map
        (fun p => observedBy c p.2) =
      some (Event.resize b :: E) := by
  rw [muxRun_append, muxRun_setup b cs []]
  simp only [List.nil_append, Option.some_bind]
  rw [muxRun_deliver E cs (some b)]
  simp only [Option.map_some']
  rw [observedBy_append, observedBy_map_single c (fun _ => Event.resize b) cs hnd hc,
    observedBy_deliverLog c cs hnd hc E]
  rfl

/-- C1 witness. -/
theorem mux_fanout_fidelity_witness :
    (muxRun ⟨[], some (imageRect 0 0 8 8)⟩
        ([0, 1].flatMap makeEnvMsgs ++ [Event.moMove ⟨1, 2⟩].map MuxMsg.parentEvent)).map
        (fun p => observedBy 0 p.2) =
      some (Event.resize (imageRect 0 0 8 8) :: [Event.moMove ⟨1, 2⟩]) :=
  mux_fanout_fidelity [0, 1] (imageRect 0 0 8 8) [Event.moMove ⟨1, 2⟩] 0
    (by decide) (by decide) (by decide)

/-- C2: refuted on the code.  `Mux.MakeEnv` (part_001 lines 137-139) first
sends the child on `addChild` and only afterwards enqueues the initial
Resize into the child's queue; nothing stops the coordinator from
forwarding a parent event to the already-registered child in between.  In
the interleaving where a parent `MoMove` is forwarded between the child's
registration and the enqueue of its initial Resize, the child's first
observed event is the `MoMove`, not a Resize — contradicting the claim and
the code's own guarantee (`// make sure to always send a resize event to a
new Env`; Env doc: first event is Resize). -/
theorem mux_first_event_race :
    (muxRun ⟨[], some (imageRect 0 0 100 100)⟩
        [MuxMsg.addChild 0, .parentEvent (.moMove ⟨3, 4⟩), .initResize 0]).map
        (fun p => observedBy 0 p.2) =
      some [Event.moMove ⟨3, 4⟩, Event.resize (imageRect 0 0 100 100)] ∧
      (Event.moMove ⟨3, 4⟩).isResize = false := by
  decide

/-- C3: the attach/kill controller (newKiller / newAttachHandler) never
emits its Dead signal while a victim is attached; on kill received while a
victim is attached, the only run of the goroutine that reaches the dead
position sends kill to the victim, receives the victim's detach, receives
the victim's Dead, and only then emits its own Dead; on kill received while
empty it emits Dead immediately. -/
theorem controller_kill_protocol (tr rest : List KAction) (ph : KPhase) :
    (kexec .empty tr = some ph → victimAttached ph = true → KAction.emitDead ∉ tr) ∧
      (kexec .attached (KAction.recvKill :: rest) = some .dead →
        rest = [.sendVictimKill, .recvVictimDetach, .recvVictimDead, .emitDead]) ∧
      kexec .empty [KAction.recvKill, .emitDead] = some .dead := by
  refine ⟨?_, ?_, by decide⟩
  · intro h hatt hmem
    have hdead := emitDead_reaches_dead tr .empty ph h hmem
    rw [hdead] at hatt
    simp [victimAttached] at hatt
  · intro h
    simp only [kexec, kstep, Option.some_bind] at h
    exact chain_from_killRecvd rest h

/-- C3 witness. -/
theorem controller_kill_protocol_witness :
    KAction.emitDead ∉ ([KAction.recvAttach] : List KAction) ∧
      ([KAction.sendVictimKill, KAction.recvVictimDetach,
          KAction.recvVictimDead, KAction.emitDead] : List KAction) =
        [.sendVictimKill, .recvVictimDetach, .recvVictimDead, .emitDead] ∧
      kexec .empty [KAction.recvKill, .emitDead] = some .dead := by
  have h := controller_kill_protocol [KAction.recvAttach]
    [KAction.sendVictimKill, .recvVictimDetach, .recvVictimDead, .emitDead] .attached
  exact ⟨h.1 (by decide) (by decide), h.2.1 (by decide), h.2.2⟩

/-- C4 counterexample: the shutdown steps the `newEnv` goroutine actually
performs (its deferred calls, run last-in-first-out) are not in the order
the claim states; in particular the first step is not the shutdown hook but
the start of the draw drain and the cascade kill of the attached child. -/
theorem newEnv_shutdown_order_counterexample :
    newEnvShutdownSeq ≠ specShutdownSeq ∧
      newEnvShutdownSeq.head? ≠ some ShutdownStep.runShutdownHook := by
  decide

/-- C4 amended: on receipt of its kill signal, `newEnv` performs the
shutdown steps in this order: start draining the inbound draw channel and
cascade-kill the attached sub-resource via the attach protocol (awaiting
its death), then close the kill channel, the inbound draw channel and the
outbound event queue, then run the user-supplied shutdown hook, then detach
from the parent, and only then report dead. -/
theorem newEnv_shutdown_order :
    newEnvShutdownSeq =
      [.startDrainDraw, .killChild, .awaitChildDead, .closeKill, .closeDraw,
       .closeEventsIn, .runShutdownHook, .detachFromParent, .emitDead] ∧
      newEnvShutdownSeq.getLast? = some ShutdownStep.emitDead := by
  decide

/-- C5: while a victim is attached (in any such controller position) the
controller never receives on its attach channel, so a second attach attempt
blocks; after the first victim detaches, the same attach attempt is
accepted. -/
theorem attach_single_owner (ph : KPhase) (h : victimAttached ph = true) :
    kexec ph [KAction.recvAttach] = none ∧
      kexec .attached [KAction.recvDetach, .recvAttach] = some .attached := by
  cases ph <;> revert h <;> decide

/-- C5 witness. -/
theorem attach_single_owner_witness :
    kexec .attached [KAction.recvAttach] = none ∧
      kexec .attached [KAction.recvDetach, .recvAttach] = some .attached :=
  attach_single_owner .attached (by decide)

/-- C6 counterexample: after a killer's kill has been fully processed its
deferred `close(kill)` has run, and a Go send on a closed channel panics,
so a second kill signal sent to the already-killed entity panics —
refuting the claim's "does not panic" part.  (Before the first kill the
same send is delivered.) -/
theorem second_kill_panics :
    lifeExec killerShutdownSeq .running (LifeAction.recvKill :: killerShutdownSeq) =
        some (.shuttingDown []) ∧
      goSend (chanOpenAfter .killC (LifeAction.recvKill :: killerShutdownSeq)) = .panicked ∧
      goSend (chanOpenAfter .killC []) = .delivered := by
  decide

/-- C6 amended: for every Killable entity of the package (killer,
attachHandler, Env, Mux), a kill signal sent after the entity has already
been killed never double-closes a channel and never causes a second Dead
signal — along every admissible run of the entity's goroutine each owned
channel is closed at most once and Dead is emitted at most once — but the
second kill send itself panics, because the entity's shutdown closes its
kill channel and a Go send on a closed channel panics. -/
theorem kill_shutdown_once (k : KillableKind) (tr : List LifeAction) (ph : LifePhase)
    (c : ChanName) (h : lifeExec (shutdownSeqOf k) .running tr = some ph) :
    tr.count (LifeAction.closeChan c) ≤ 1 ∧ tr.count LifeAction.emitDead ≤ 1 ∧
      (ph = .shuttingDown [] → goSend (chanOpenAfter .killC tr) = .panicked) := by
  refine ⟨?_, ?_, ?_⟩
  · calc tr.count (LifeAction.closeChan c)
        ≤ (shutdownSeqOf k).count (LifeAction.closeChan c) :=
          lifeExec_count_le _ tr ph _ h (by simp) (by simp)
      _ ≤ 1 := by cases k <;> cases c <;> decide
  · calc tr.count LifeAction.emitDead
        ≤ (shutdownSeqOf k).count LifeAction.emitDead :=
          lifeExec_count_le _ tr ph _ h (by simp) (by simp)
      _ ≤ 1 := by cases k <;> decide
  · rintro rfl
    have hmem : LifeAction.closeChan .killC ∈ tr :=
      lifeExec_complete_mem _ tr h _ (by cases k <;> decide)
    simp [goSend, chanOpenAfter, hmem]

/-- C6 witness. -/
theorem kill_shutdown_once_witness :
    (LifeAction.recvKill :: envLifeShutdownSeq).count (LifeAction.closeChan .killC) ≤ 1 ∧
      (LifeAction.recvKill :: envLifeShutdownSeq).count LifeAction.emitDead ≤ 1 ∧
      goSend (chanOpenAfter .killC (LifeAction.recvKill :: envLifeShutdownSeq)) = .panicked := by
  have h := kill_shutdown_once .env (LifeAction.recvKill :: envLifeShutdownSeq)
    (.shuttingDown []) .killC (by decide)
  exact ⟨h.1, h.2.1, h.2.2 rfl⟩

/-- C7: `remove(e, s)` errors exactly when `e` is not an element of `s`;
when `e` occurs, it returns `s` with the first occurrence removed and all
other elements kept in order; and the Mux coordinator's child-remove step
aborts fatally (panics) exactly when the child identity is absent from its
registry. -/
theorem remove_spec (e : Nat) (s : List Nat) (st : MuxState) (c : Nat) :
    (remove e s = none ↔ e ∉ s) ∧
      (∀ l1 l2 : List Nat, s = l1 ++ e :: l2 → e ∉ l1 → remove e s = some (l1 ++ l2)) ∧
      (muxStep st (.removeChild c) = none ↔ c ∉ st.children) := by
  refine ⟨remove_eq_none_iff e s, ?_, ?_⟩
  · intro l1 l2 hs hmem
    rw [hs]
    exact remove_first e l1 l2 hmem
  · simp [muxStep, Option.map_eq_none', remove_eq_none_iff]

/-- C7 witness. -/
theorem remove_spec_witness :
    remove 2 [1, 2, 3] = some ([1] ++ [3]) ∧
      muxStep ⟨[4], none⟩ (MuxMsg.removeChild 5) = none := by
  have h := remove_spec 2 [1, 2, 3] ⟨[4], none⟩ 5
  exact ⟨h.2.1 [1] [3] rfl (by decide), h.2.2.mpr (by decide)⟩

/-- C8: refuted on the code.  `Mux.resizeChildren` guards the loop with
`i > len(lay)` but then indexes `lay[i]`, so with more children than
partition rectangles it panics with an index-out-of-range runtime error at
`i = len(lay)` instead of logging and skipping: with a one-rectangle
partition and two children the step is fatal (`none`), while with enough
rectangles every child receives its localized Resize. -/
theorem resizeChildren_short_partition_panics :
    resizeChildren [imageRect 0 0 100 50] [0, 1] = none ∧
      resizeChildren [imageRect 0 0 100 50, imageRect 0 50 100 100] [0, 1] =
        some [(0, imageRect 0 0 100 50), (1, imageRect 0 50 100 100)] := by
  decide

/-- C9: `Scroller.Partition` with `Length=3, ChildHeight=50, Gap=5,
Offset=0` over bounds (0,0)-(100,500) returns exactly the rectangles
(5,5)-(95,55), (5,60)-(95,110), (5,115)-(95,165), in that order. -/
theorem scroller_partition_example :
    Scroller.Partition ⟨3, 50, 0, 5⟩ (imageRect 0 0 100 500) =
      [imageRect 5 5 95 55, imageRect 5 60 95 110, imageRect 5 115 95 165] := by
  decide

/-- C10: for all integers `val`, `a`, `b`, `clamp(val, a, b)` lies in the
closed interval between `min a b` and `max a b`, and returns `val`
unchanged whenever `val` already lies in that interval. -/
theorem clamp_spec (val a b : Int) :
    min a b ≤ clamp val a b ∧ clamp val a b ≤ max a b ∧
      (min a b ≤ val → val ≤ max a b → clamp val a b = val) := by
  unfold clamp
  rcases le_or_lt a b with h | h
  · rw [min_eq_left h, max_eq_right h]
    split_ifs <;> omega
  · rw [min_eq_right h.le, max_eq_left h.le]
    split_ifs <;> omega

/-- C10 witness. -/
theorem clamp_spec_witness :
    min (3 : Int) 7 ≤ clamp 5 3 7 ∧ clamp 5 3 7 ≤ max (3 : Int) 7 ∧ clamp 5 3 7 = 5 := by
  have h := clamp_spec 5 3 7
  exact ⟨h.1, h.2.1, h.2.2 (by decide) (by decide)⟩

end Gui
